import Mathlib

/-!
Verification of the loggy leveled-logging library.

The development shallowly embeds the package's Go sources: the severity
scale (`level.go`), the options record and its defaults (`options.go`),
the context tag store and the dispatch logger (`loggy.go`), and the
byte-interception writer (`writer.go`).  External collaborators (the two
byte sinks, the wall clock and its text formatter, and the runtime's
caller-frame lookup) are modelled as explicit state and environment
parameters; machine integers are `Int`; Go errors are `Option String`
values (`none` = nil).
-/

namespace Loggy

/-! ## level.go -/

/-- Go: `type Level = int`. -/
abbrev Level := Int

def LevelStd : Level := 0

def LevelCritical : Level := 1

def LevelError : Level := 2

def LevelWarning : Level := 3

def LevelInfo : Level := 4

def LevelDebug : Level := 5

/-- `LevelNames`, the Go map from severity to display label, as an
association list (one entry per key, as in the source literal). -/
def LevelNames : List (Level × String) :=
  [(LevelCritical, "CRIT"), (LevelDebug, "DEBUG"), (LevelError, "ERROR"),
   (LevelInfo, "INFO"), (LevelWarning, "WARN"), (LevelStd, "OUT")]

/-- Go map indexing `LevelNames[severity]`: the entry's label, or the zero
value `""` when the key is missing. -/
def levelName (severity : Level) : String :=
  ((LevelNames.find? (fun p => p.1 == severity)).map Prod.snd).getD ""

/-! ## Context and tag store (loggy.go) -/

/-- Go: `map[string]interface{}`, the tag store, as an association list.
Go map semantics: one entry per key; insertion overwrites in place. -/
abbrev TagMap (α : Type u) := List (String × α)

def TagMap.get? (m : TagMap α) (name : String) : Option α :=
  ((m.find? (fun p => p.1 == name)).map Prod.snd)

def TagMap.insert (m : TagMap α) (name : String) (v : α) : TagMap α :=
  if m.any (fun p => p.1 == name) then
    m.map (fun p => if p.1 == name then (name, v) else p)
  else
    m ++ [(name, v)]

def TagMap.erase (m : TagMap α) (name : String) : TagMap α :=
  m.filter (fun p => !(p.1 == name))

/-- A value stored in a context: either a tag map (the only kind the type
assertion `.(map[string]interface{})` accepts) or any other value, such as
the logger back-reference stored by `New`. -/
inductive CtxVal (α : Type u) where
  | tags (m : TagMap α)
  | other
deriving DecidableEq

/-- Go `context.Context` restricted to what the package touches: a stack of
string-keyed values, most recent first (`context.WithValue` layering). -/
structure Ctx (α : Type u) where
  entries : List (String × CtxVal α)
deriving DecidableEq

/-- `ctx.Value(key)`: the most recently layered value for the key. -/
def Ctx.value? (ctx : Ctx α) (key : String) : Option (CtxVal α) :=
  ((ctx.entries.find? (fun p => p.1 == key)).map Prod.snd)

/-- `context.WithValue(ctx, key, v)`: derive a new context. -/
def Ctx.withValue (ctx : Ctx α) (key : String) (v : CtxVal α) : Ctx α :=
  ⟨(key, v) :: ctx.entries⟩

def ContextKeyLogger : String := "loggy.Logger"

def ContextKeyTags : String := "loggy.Tags"

/-! ## options.go -/

/-- An `io.Writer` handle as the logger's configuration sees it: the two
process streams or some other user-supplied writer. -/
inductive GoWriter where
  | stdout
  | stderr
  | handle (id : Nat)
deriving DecidableEq

/-- A `func() time.Time` clock source: `time.Now` or a user closure. -/
inductive TimeFn where
  | timeNow
  | custom (id : Nat)
deriving DecidableEq

/-- `time.RFC3339`. -/
def RFC3339 : String := "2006-01-02T15:04:05Z07:00"

/-- The `Options` struct.  Nil-able Go fields (`io.Writer`, `func()
time.Time`) become `Option`; `""` is the unset string, as in the source's
checks. -/
structure Options where
  Out : Option GoWriter
  Err : Option GoWriter
  Threshold : Level
  Prefix : String
  DisableTimestamps : Bool
  TimestampFormat : String
  TimestampFunc : Option TimeFn
  LogFatal : Bool
  DisableFunctionName : Bool
  DisableTags : Bool
  TagsContextKey : String
deriving DecidableEq

/-- `DefaultOptions` (options.go); `DisableTags` is absent from the source
literal, so it is the zero value `false`. -/
def DefaultOptions : Options :=
  { Out := some .stdout
    Err := some .stderr
    Threshold := LevelInfo
    Prefix := ""
    DisableTimestamps := false
    TimestampFormat := RFC3339
    TimestampFunc := some .timeNow
    LogFatal := false
    DisableFunctionName := false
    DisableTags := false
    TagsContextKey := ContextKeyTags }

/-- The Go zero value of `Options`: what `loggy.Options{}` builds. -/
def zeroOptions : Options :=
  { Out := none
    Err := none
    Threshold := 0
    Prefix := ""
    DisableTimestamps := false
    TimestampFormat := ""
    TimestampFunc := none
    LogFatal := false
    DisableFunctionName := false
    DisableTags := false
    TagsContextKey := "" }

/-! ## loggy.go: construction -/

/-- The `logger` struct (the mutex and the unused `Ctx` field carry no
logical state). -/
structure logger where
  options : Options
deriving DecidableEq

/-- `New(ctx, options)`: copy the options, fill each unset field from
`DefaultOptions` exactly as the source's five `if` statements do, and
derive a context carrying the logger back-reference under
`ContextKeyLogger`. -/
def New (ctx : Ctx α) (options : Options) : logger × Ctx α :=
  let o := options
  let o := if o.Out.isNone then { o with Out := DefaultOptions.Out } else o
  let o := if o.Err.isNone then { o with Err := DefaultOptions.Err } else o
  let o := if o.TimestampFormat == "" then
      { o with TimestampFormat := DefaultOptions.TimestampFormat } else o
  let o := if o.TimestampFunc.isNone then
      { o with TimestampFunc := DefaultOptions.TimestampFunc } else o
  let o := if o.TagsContextKey == "" then
      { o with TagsContextKey := DefaultOptions.TagsContextKey } else o
  (⟨o⟩, ctx.withValue ContextKeyLogger .other)

/-! ## loggy.go: tag store operations -/

/-- `logger.Tags`: the tag map at the configured key, or a fresh empty map
when the key is absent or holds a non-map value. -/
def logger.Tags (l : logger) (ctx : Ctx α) : TagMap α :=
  match ctx.value? l.options.TagsContextKey with
  | some (.tags m) => m
  | _ => []

/-- `logger.Tag`: single-entry lookup; `nil` (`none`) when the store or the
name is absent. -/
def logger.Tag (l : logger) (ctx : Ctx α) (name : String) : Option α :=
  match ctx.value? l.options.TagsContextKey with
  | some (.tags m) => TagMap.get? m name
  | _ => none

/-- `logger.AddTag`: insert/overwrite `name -> value` and layer the map
onto the context, unless the name is empty. -/
def logger.AddTag (l : logger) (ctx : Ctx α) (name : String) (v : α) :
    TagMap α × Ctx α :=
  let tags := l.Tags ctx
  if name ≠ "" then
    let tags := TagMap.insert tags name v
    (tags, ctx.withValue l.options.TagsContextKey (.tags tags))
  else
    (tags, ctx)

/-- `logger.RemoveTag`: delete `name` and layer the map onto the context,
unless the name is empty. -/
def logger.RemoveTag (l : logger) (ctx : Ctx α) (name : String) :
    TagMap α × Ctx α :=
  let tags := l.Tags ctx
  if name ≠ "" then
    let tags := TagMap.erase tags name
    (tags, ctx.withValue l.options.TagsContextKey (.tags tags))
  else
    (tags, ctx)

/-! ## Streams, outcomes and the logging environment -/

/-- One configured byte sink, with the lines it accepted, every write
attempted against it, and an optional permanent failure mode (`some e`:
each write fails with error `e`). -/
structure Stream where
  written : List String
  attempted : List String
  failWith : Option String
deriving DecidableEq

/-- One `Write` call against a sink. -/
def Stream.writeString (s : Stream) (msg : String) : Stream × Option String :=
  match s.failWith with
  | some e => ({ s with attempted := s.attempted ++ [msg] }, some e)
  | none =>
    ({ s with written := s.written ++ [msg], attempted := s.attempted ++ [msg] },
      none)

/-- The state of the two streams behind `l.options.Out` and
`l.options.Err`. -/
structure LogState where
  out : Stream
  err : Stream
deriving DecidableEq

/-- How a `Log`/`Logf` call ends: a normal return carrying the Go error
value (`none` = nil), or `log.Fatal` terminating the process with the
recorded message. -/
inductive LogOutcome where
  | ret (e : Option String)
  | fatal (msg : String)
deriving DecidableEq

/-- The external collaborators one call observes: the time package
(`TimestampFunc().Format(TimestampFormat)` as `formatTime`), the runtime's
caller-frame lookup (`runtime.Caller` succeeding or not, and the resolved
full function name), and Go's `%v` rendering of tag values. -/
structure LogEnv (α : Type u) where
  formatTime : Option TimeFn → String → String
  callerOk : Bool
  callerName : String
  render : α → String

/-- `logger.maybePrefixTimestamp`. -/
def logger.maybePrefixTimestamp (l : logger) (env : LogEnv α) (msg : String) :
    String :=
  if l.options.DisableTimestamps then msg
  else env.formatTime l.options.TimestampFunc l.options.TimestampFormat ++ " " ++ msg

/-! ## fmt.Sprintf on string arguments -/

/-- `fmt.Sprintf` restricted to what the logger feeds it: a format scanned
left to right, each verb (`%` plus one directive character other than `%`)
consuming the next pre-rendered argument, with Go's `%!(NOVERB)`,
`%!v(MISSING)` and `%!(EXTRA ...)` degradations.  Returns the rendered
text and the arguments left over. -/
def sprintfAux : List Char → List String → String × List String
  | [], args => ("", args)
  | c :: rest, args =>
    if c == '%' then
      match rest with
      | [] => ("%!(NOVERB)", args)
      | v :: rest2 =>
        if v == '%' then
          ("%" ++ (sprintfAux rest2 args).1, (sprintfAux rest2 args).2)
        else
          match args with
          | [] =>
            ("%!" ++ String.singleton v ++ "(MISSING)" ++ (sprintfAux rest2 []).1,
              (sprintfAux rest2 []).2)
          | a :: args2 =>
            (a ++ (sprintfAux rest2 args2).1, (sprintfAux rest2 args2).2)
    else
      (String.singleton c ++ (sprintfAux rest args).1, (sprintfAux rest args).2)

/-- A format whose scan never reaches a bare trailing `%`: appending more
format text then distributes over `sprintfAux` (`sprintfAux_append`). -/
def goodFormat : List Char → Bool
  | [] => true
  | c :: rest =>
    if c == '%' then
      match rest with
      | [] => false
      | _ :: rest2 => goodFormat rest2
    else goodFormat rest

def sprintf (format : String) (args : List String) : String :=
  let (s, rest) := sprintfAux format.data args
  if rest.isEmpty then s
  else s ++ "%!(EXTRA " ++ String.intercalate ", " (rest.map (fun a => "string=" ++ a)) ++ ")"

/-! ## loggy.go: Logf -/

/-- The tag segment `Logf` builds: `[name:value, ...]` with the separator
after every entry but the last, as the source's `count+1 < len(tags)`
loop writes it. -/
def renderTags (env : LogEnv α) (tags : TagMap α) : String :=
  let n := List.length (α := String × α) tags
  "[" ++ String.join (tags.enum.map (fun p =>
    p.2.1 ++ ":" ++ env.render p.2.2 ++ (if p.1 + 1 < n then ", " else ""))) ++ "]"

/-- `strings.Split(name, "/")` followed by taking the last segment. -/
def shortFnName (fullName : String) : String :=
  (fullName.splitOn "/").getLastD ""

/-- The fixed diagnostic text `fmt.Sprintf("%s %s %s", LevelNames[LevelCritical],
"loggy.logger.Logf", "failed to dynamically lookup function name")`. -/
def lookupErrText : String :=
  levelName LevelCritical ++ " " ++ "loggy.logger.Logf" ++ " " ++
    "failed to dynamically lookup function name"

/-- The loop `for i := 0; i < n; i++ { format = format + " %v" }` run on
the empty string. -/
def synthFormat : Nat → String
  | 0 => ""
  | n + 1 => synthFormat n ++ " %v"

/-- The straight-line tail of `Logf` that turns the severity/function-name
header into the final text: tag segment, prefix, format synthesis, payload
application and the trailing newline. -/
def finishLine (l : logger) (env : LogEnv α) (ctx : Ctx α) (format : String)
    (message : List String) (msg : String) : String :=
  let msg := if l.options.DisableTags = false ∧ 0 < (l.Tags ctx).length then
      msg ++ " " ++ renderTags env (l.Tags ctx)
    else msg
  let msg := if l.options.Prefix ≠ "" then msg ++ " " ++ l.options.Prefix else msg
  let format := if format = "" ∧ 0 < message.length then
      synthFormat message.length
    else format
  sprintf ("%s" ++ format ++ "\n") (msg :: message)

/-- The write at the end of `Logf`: route by severity, attempt the one
write, and turn its failure into a returned error or `log.Fatal`. -/
def logfWrite (l : logger) (env : LogEnv α) (severity : Level) (msg : String)
    (st : LogState) : LogState × LogOutcome :=
  if severity = LevelStd ∨ LevelInfo ≤ severity then
    let (outS, werr) := st.out.writeString (l.maybePrefixTimestamp env msg)
    let st := { st with out := outS }
    match werr with
    | some e => if l.options.LogFatal then (st, .fatal msg) else (st, .ret (some e))
    | none => (st, .ret none)
  else
    let (errS, werr) := st.err.writeString (l.maybePrefixTimestamp env msg)
    let st := { st with err := errS }
    match werr with
    | some e => if l.options.LogFatal then (st, .fatal msg) else (st, .ret (some e))
    | none => (st, .ret none)

/-- The body of `Logf` after the threshold checks: severity label,
function-name capture (with its internal-diagnostic failure path), then
`finishLine` and the routed write. -/
def logfEmit (l : logger) (env : LogEnv α) (ctx : Ctx α) (severity : Level)
    (format : String) (message : List String) (st : LogState) :
    LogState × LogOutcome :=
  let msg := levelName severity
  if l.options.DisableFunctionName = false ∧ env.callerOk = false then
    let (errS, werr) := st.err.writeString (l.maybePrefixTimestamp env lookupErrText)
    let st := { st with err := errS }
    match werr with
    | some e =>
      if l.options.LogFatal then (st, .fatal lookupErrText) else (st, .ret (some e))
    | none => logfWrite l env severity (finishLine l env ctx format message msg) st
  else
    let msg := if l.options.DisableFunctionName then msg
      else msg ++ " " ++ shortFnName env.callerName
    logfWrite l env severity (finishLine l env ctx format message msg) st

/-- Two's-complement wraparound of a 64-bit Go `int` arithmetic result:
the value an `int` variable holds after the operation (Go `int` is 64
bits on the supported platforms). -/
def wrap64 (n : Int) : Int := (n + 2 ^ 63) % 2 ^ 64 - 2 ^ 63

/-- `severity < 0 || severity+1 > len(LevelNames)` normalized to
`LevelStd`, as both `Log` and `Logf` do before anything else but the
threshold-disabled check.  The sum `severity+1` is Go `int` arithmetic,
so it wraps at `math.MaxInt64`: there the range check does not fire and
the severity is left unchanged. -/
def coerceSeverity (severity : Level) : Level :=
  if severity < 0 ∨ (LevelNames.length : Int) < wrap64 (severity + 1) then LevelStd
  else severity

/-- `logger.Logf`: disabled-threshold check first, severity coercion,
threshold filter, then the emission pipeline. -/
def logger.Logf (l : logger) (env : LogEnv α) (ctx : Ctx α) (severity : Level)
    (format : String) (message : List String) (st : LogState) :
    LogState × LogOutcome :=
  if l.options.Threshold < 0 then (st, .ret none)
  else
    let severity := coerceSeverity severity
    if severity ≠ LevelStd ∧ l.options.Threshold < severity then (st, .ret none)
    else logfEmit l env ctx severity format message st

/-- `logger.Log`: `Logf` without the format string. -/
def logger.Log (l : logger) (env : LogEnv α) (ctx : Ctx α) (severity : Level)
    (message : List String) (st : LogState) : LogState × LogOutcome :=
  l.Logf env ctx severity "" message st

def logger.Std (l : logger) (env : LogEnv α) (ctx : Ctx α)
    (message : List String) (st : LogState) : LogState × LogOutcome :=
  l.Logf env ctx LevelStd "" message st

def logger.Stdf (l : logger) (env : LogEnv α) (ctx : Ctx α) (format : String)
    (message : List String) (st : LogState) : LogState × LogOutcome :=
  l.Logf env ctx LevelStd format message st

def logger.Critical (l : logger) (env : LogEnv α) (ctx : Ctx α)
    (message : List String) (st : LogState) : LogState × LogOutcome :=
  l.Logf env ctx LevelCritical "" message st

def logger.Criticalf (l : logger) (env : LogEnv α) (ctx : Ctx α) (format : String)
    (message : List String) (st : LogState) : LogState × LogOutcome :=
  l.Logf env ctx LevelCritical format message st

def logger.Warning (l : logger) (env : LogEnv α) (ctx : Ctx α)
    (message : List String) (st : LogState) : LogState × LogOutcome :=
  l.Logf env ctx LevelWarning "" message st

def logger.Warningf (l : logger) (env : LogEnv α) (ctx : Ctx α) (format : String)
    (message : List String) (st : LogState) : LogState × LogOutcome :=
  l.Logf env ctx LevelWarning format message st

def logger.Info (l : logger) (env : LogEnv α) (ctx : Ctx α)
    (message : List String) (st : LogState) : LogState × LogOutcome :=
  l.Logf env ctx LevelInfo "" message st

def logger.Infof (l : logger) (env : LogEnv α) (ctx : Ctx α) (format : String)
    (message : List String) (st : LogState) : LogState × LogOutcome :=
  l.Logf env ctx LevelInfo format message st

def logger.Debug (l : logger) (env : LogEnv α) (ctx : Ctx α)
    (message : List String) (st : LogState) : LogState × LogOutcome :=
  l.Logf env ctx LevelDebug "" message st

def logger.Debugf (l : logger) (env : LogEnv α) (ctx : Ctx α) (format : String)
    (message : List String) (st : LogState) : LogState × LogOutcome :=
  l.Logf env ctx LevelDebug format message st

/-! ## writer.go -/

/-- The inner `io.Writer` a `Writer` forwards to: the chunks it accepted
and an optional permanent failure mode. -/
structure ByteSink where
  chunks : List (List Nat)
  failWith : Option String
deriving DecidableEq

def ByteSink.write (s : ByteSink) (p : List Nat) : ByteSink × Nat × Option String :=
  match s.failWith with
  | some e => (s, 0, some e)
  | none => ({ s with chunks := s.chunks ++ [p] }, p.length, none)

/-- `WriteFn`: a handler receiving the inner sink and the byte slice; its
effect on the sink is returned alongside its error. -/
def WriteFn := ByteSink → List Nat → ByteSink × Option String

/-- `DefaultWriteFn`: forward the slice to the inner sink, propagating its
error. -/
def DefaultWriteFn : WriteFn := fun out p =>
  let r := out.write p
  match r.2.2 with
  | some err => (r.1, some err)
  | none => (r.1, none)

structure Writer where
  handler : WriteFn
  out : ByteSink

def NewWriter (out : ByteSink) (fn : WriteFn) : Writer :=
  { handler := fn, out := out }

/-- `Writer.Write`: empty input returns the named zero values without
calling the handler; a handler error returns `(0, err)`; success reports
the full input length. -/
def Writer.Write (w : Writer) (p : List Nat) : Writer × Nat × Option String :=
  if p.length = 0 then (w, 0, none)
  else
    let (out2, e) := w.handler w.out p
    match e with
    | some err => ({ w with out := out2 }, 0, some err)
    | none => ({ w with out := out2 }, p.length, none)

/-! ## Definitions following the spec's words (for refinement claims) -/

/-- Follows the spec's words (4.4): `shouldEmit(severity, threshold)` —
threshold < 0 never emits, Standard always emits, otherwise emit iff
`severity ≤ threshold`. -/
def shouldEmit (severity : Level) (threshold : Int) : Bool :=
  if threshold < 0 then false
  else if severity = LevelStd then true
  else decide (severity ≤ threshold)

inductive StreamChoice where
  | out
  | err
deriving DecidableEq

/-- Follows the spec's words (4.4): `streamFor(severity)` — Standard and
the Info/Debug half to the output stream, everything else to the error
stream. -/
def streamFor (severity : Level) : StreamChoice :=
  if severity = LevelStd ∨ LevelInfo ≤ severity then .out else .err

/-- Follows the spec's words (4.3 composition order): timestamp then
severity label then function name then tag list then prefix then payload
then the line terminator, each segment present under its enabling
condition. -/
def specComposedLine (l : logger) (env : LogEnv α) (ctx : Ctx α)
    (severity : Level) (format : String) (message : List String) : String :=
  (if l.options.DisableTimestamps then ""
    else env.formatTime l.options.TimestampFunc l.options.TimestampFormat ++ " ")
  ++ levelName severity
  ++ (if l.options.DisableFunctionName = false ∧ env.callerOk = true then
        " " ++ shortFnName env.callerName
      else "")
  ++ (if l.options.DisableTags = false ∧ 0 < (l.Tags ctx).length then
        " " ++ renderTags env (l.Tags ctx)
      else "")
  ++ (if l.options.Prefix ≠ "" then " " ++ l.options.Prefix else "")
  ++ (if format = "" ∧ 0 < message.length then
        String.join (message.map (fun v => " " ++ v))
      else (sprintfAux format.data message).1)
  ++ "\n"

/-! ## Tag-store lemmas -/

theorem find?_insert_present (m : List (String × α)) (name : String) (v : α)
    (h : m.any (fun p => p.1 == name) = true) :
    (m.map (fun p => if p.1 == name then (name, v) else p)).find?
      (fun p => p.1 == name) = some (name, v) := by
  induction m with
  | nil => simp at h
  | cons a t ih =>
    by_cases ha : (a.1 == name) = true
    · simp [List.find?, ha]
    · have ht : t.any (fun p => p.1 == name) = true := by
        simpa [List.any_cons, ha] using h
      simpa [List.find?, ha] using ih ht

theorem find?_insert_absent (m : List (String × α)) (name : String) (v : α)
    (h : m.any (fun p => p.1 == name) = false) :
    (m ++ [(name, v)]).find? (fun p => p.1 == name) = some (name, v) := by
  induction m with
  | nil => simp [List.find?]
  | cons a t ih =>
    have ha : (a.1 == name) = false := by
      by_contra hc
      simp only [List.any_cons, Bool.or_eq_false_iff] at h
      exact absurd h.1 hc
    have ht : t.any (fun p => p.1 == name) = false := by
      simp only [List.any_cons, Bool.or_eq_false_iff] at h
      exact h.2
    simpa [List.find?, ha] using ih ht

theorem get?_insert_self (m : TagMap α) (name : String) (v : α) :
    TagMap.get? (TagMap.insert m name v) name = some v := by
  unfold TagMap.insert TagMap.get?
  by_cases h : m.any (fun p => p.1 == name) = true
  · rw [if_pos h, find?_insert_present m name v h]
    rfl
  · rw [if_neg h, find?_insert_absent m name v (Bool.not_eq_true _ |>.mp h)]
    rfl

theorem get?_erase_self (m : TagMap α) (name : String) :
    TagMap.get? (TagMap.erase m name) name = none := by
  unfold TagMap.erase TagMap.get?
  induction m with
  | nil => simp
  | cons a t ih =>
    by_cases ha : (a.1 == name) = true
    · rw [List.filter_cons_of_neg (by simp [ha])]
      exact ih
    · rw [List.filter_cons_of_pos (by simp [ha]),
        List.find?_cons_of_neg _ (by simp [ha])]
      exact ih

theorem countP_insert_one (m : TagMap α) (name : String) (v : α)
    (hwf : (m.map Prod.fst).Nodup) :
    (TagMap.insert m name v).countP (fun p => p.1 == name) = 1 := by
  unfold TagMap.insert
  by_cases h : m.any (fun p => p.1 == name) = true
  · rw [if_pos h, List.countP_map]
    have hfun : ((fun q : String × α => q.1 == name) ∘
          (fun p : String × α => if p.1 == name then (name, v) else p)) =
        (fun q : String × α => q.1 == name) := by
      funext p
      by_cases hp : (p.1 == name) = true
      · simp [Function.comp, hp]
      · simp [Function.comp, hp]
    rw [hfun]
    have hle : m.countP (fun q : String × α => q.1 == name) ≤ 1 := by
      have hcount : (m.map Prod.fst).count name ≤ 1 :=
        List.nodup_iff_count_le_one.mp hwf name
      have heq : (m.map Prod.fst).count name =
          m.countP (fun q : String × α => q.1 == name) := by
        rw [List.count, List.countP_map]
        rfl
      omega
    have hpos : 0 < m.countP (fun q : String × α => q.1 == name) := by
      rcases List.any_eq_true.mp h with ⟨p, hp, hpe⟩
      exact List.countP_pos_iff.mpr ⟨p, hp, hpe⟩
    omega
  · rw [if_neg h, List.countP_append]
    have hzero : m.countP (fun p : String × α => p.1 == name) = 0 := by
      rw [List.countP_eq_zero]
      intro p hp hc
      exact h (List.any_eq_true.mpr ⟨p, hp, hc⟩)
    rw [hzero]
    simp [List.countP_cons]

/-! ## String and sprintf lemmas -/

theorem foldl_append_init (l : List String) : ∀ a b : String,
    l.foldl (fun r s => r ++ s) (a ++ b) = a ++ l.foldl (fun r s => r ++ s) b := by
  induction l with
  | nil => intro a b; rfl
  | cons c t ih =>
    intro a b
    simp only [List.foldl_cons]
    rw [String.append_assoc, ih]

theorem join_cons (a : String) (l : List String) :
    String.join (a :: l) = a ++ String.join l := by
  show List.foldl (fun r s => r ++ s) "" (a :: l) = _
  simp only [List.foldl_cons]
  rw [String.empty_append]
  calc List.foldl (fun r s => r ++ s) a l
      = List.foldl (fun r s => r ++ s) (a ++ "") l := by rw [String.append_empty]
    _ = a ++ List.foldl (fun r s => r ++ s) "" l := foldl_append_init l a ""

theorem sprintfAux_append (xs : List Char) (args : List String) :
    goodFormat xs = true → ∀ ys : List Char,
    sprintfAux (xs ++ ys) args =
      ((sprintfAux xs args).1 ++ (sprintfAux ys (sprintfAux xs args).2).1,
        (sprintfAux ys (sprintfAux xs args).2).2) := by
  induction xs, args using sprintfAux.induct with
  | case1 args =>
    intro _ ys
    simp [sprintfAux, String.empty_append]
  | case2 c args hc =>
    intro hg ys
    exfalso
    rw [goodFormat.eq_def] at hg
    simp [hc] at hg
  | case3 c args hc v rest2 hv ih =>
    intro hg ys
    rw [goodFormat.eq_def] at hg
    simp only [hc, if_true, if_pos] at hg
    have hrec := ih hg ys
    rw [List.cons_append, List.cons_append, sprintfAux.eq_def]
    simp only [hc, hv, if_pos, ↓reduceIte]
    rw [hrec, sprintfAux.eq_def (c :: v :: rest2)]
    simp only [hc, hv, ↓reduceIte]
    simp [String.append_assoc]
  | case4 c hc v rest2 hv ih =>
    intro hg ys
    rw [goodFormat.eq_def] at hg
    simp only [hc, if_true, if_pos] at hg
    have hrec := ih hg ys
    rw [List.cons_append, List.cons_append, sprintfAux.eq_def]
    simp only [hc, hv, ↓reduceIte]
    rw [hrec, sprintfAux.eq_def (c :: v :: rest2)]
    simp only [hc, hv, ↓reduceIte]
    simp [String.append_assoc]
  | case5 c hc v rest2 hv a args2 ih =>
    intro hg ys
    rw [goodFormat.eq_def] at hg
    simp only [hc, if_true, if_pos] at hg
    have hrec := ih hg ys
    rw [List.cons_append, List.cons_append, sprintfAux.eq_def]
    simp only [hc, hv, ↓reduceIte]
    rw [hrec, sprintfAux.eq_def (c :: v :: rest2)]
    simp only [hc, hv, ↓reduceIte]
    simp [String.append_assoc]
  | case6 c rest args hc ih =>
    intro hg ys
    rw [goodFormat.eq_def] at hg
    simp only [hc] at hg
    have hg2 : goodFormat rest = true := by
      cases rest with
      | nil => rfl
      | cons d t => simpa using hg
    have hrec := ih hg2 ys
    rw [List.cons_append, sprintfAux.eq_def]
    simp only [hc, ↓reduceIte]
    rw [hrec, sprintfAux.eq_def (c :: rest)]
    simp only [hc, ↓reduceIte]
    simp [String.append_assoc]

theorem synthFormat_comm (n : Nat) :
    synthFormat n ++ " %v" = " %v" ++ synthFormat n := by
  induction n with
  | zero =>
    show "" ++ " %v" = " %v" ++ ""
    rw [String.empty_append, String.append_empty]
  | succ n ih =>
    show (synthFormat n ++ " %v") ++ " %v" = " %v" ++ (synthFormat n ++ " %v")
    calc (synthFormat n ++ " %v") ++ " %v"
        = (" %v" ++ synthFormat n) ++ " %v" := by rw [ih]
      _ = " %v" ++ (synthFormat n ++ " %v") := String.append_assoc _ _ _

theorem synthFormat_left (n : Nat) :
    synthFormat (n + 1) = " %v" ++ synthFormat n := by
  show synthFormat n ++ " %v" = _
  exact synthFormat_comm n

theorem sprintfAux_synth (args : List String) : ∀ tailC : List Char,
    sprintfAux ((synthFormat args.length).data ++ tailC) args =
      (String.join (args.map (fun a => " " ++ a)) ++ (sprintfAux tailC []).1,
        (sprintfAux tailC []).2) := by
  induction args with
  | nil =>
    intro t
    show sprintfAux (("" : String).data ++ t) [] = _
    simp [String.join, String.empty_append]
  | cons a as ih =>
    intro t
    rw [List.length_cons, synthFormat_left, String.data_append]
    show sprintfAux ((' ' :: '%' :: 'v' :: (synthFormat as.length).data) ++ t)
      (a :: as) = _
    rw [List.cons_append, List.cons_append, List.cons_append]
    have houter : sprintfAux
        (' ' :: '%' :: 'v' :: ((synthFormat as.length).data ++ t)) (a :: as) =
        (String.singleton ' ' ++ (sprintfAux
            ('%' :: 'v' :: ((synthFormat as.length).data ++ t)) (a :: as)).1,
          (sprintfAux
            ('%' :: 'v' :: ((synthFormat as.length).data ++ t)) (a :: as)).2) := by
      rw [sprintfAux.eq_def]
      simp
    have hinner : sprintfAux
        ('%' :: 'v' :: ((synthFormat as.length).data ++ t)) (a :: as) =
        (a ++ (sprintfAux ((synthFormat as.length).data ++ t) as).1,
          (sprintfAux ((synthFormat as.length).data ++ t) as).2) := by
      rw [sprintfAux.eq_def]
      simp
    rw [houter, hinner, ih t]
    rw [List.map_cons, join_cons]
    simp [String.append_assoc, show String.singleton ' ' = " " from rfl]

theorem sprintf_decompose (msg format : String) (message : List String)
    (hgood : goodFormat format.data = true)
    (hcons : (sprintfAux format.data message).2 = []) :
    sprintf ("%s" ++ format ++ "\n") (msg :: message) =
      msg ++ (sprintfAux format.data message).1 ++ "\n" := by
  have hdata : ("%s" ++ format ++ "\n").data =
      '%' :: 's' :: (format.data ++ ['\n']) := by
    rw [String.data_append, String.data_append]
    show (['%', 's'] ++ format.data) ++ ['\n'] = _
    rw [List.append_assoc]
    rfl
  have hstep : sprintfAux ('%' :: 's' :: (format.data ++ ['\n'])) (msg :: message) =
      (msg ++ (sprintfAux (format.data ++ ['\n']) message).1,
        (sprintfAux (format.data ++ ['\n']) message).2) := by
    rw [sprintfAux.eq_def]
    simp
  have hnl : sprintfAux ['\n'] ([] : List String) = ("\n", []) := by
    rw [sprintfAux.eq_def]
    simp [sprintfAux, show String.singleton '\n' = "\n" from rfl, String.append_empty]
  have happ := sprintfAux_append format.data message hgood ['\n']
  rw [hcons, hnl] at happ
  unfold sprintf
  rw [hdata, hstep, happ]
  simp [String.append_assoc]

theorem sprintf_synth (msg : String) (message : List String) :
    sprintf ("%s" ++ synthFormat message.length ++ "\n") (msg :: message) =
      msg ++ String.join (message.map (fun a => " " ++ a)) ++ "\n" := by
  have hdata : ("%s" ++ synthFormat message.length ++ "\n").data =
      '%' :: 's' :: ((synthFormat message.length).data ++ ['\n']) := by
    rw [String.data_append, String.data_append]
    show (['%', 's'] ++ (synthFormat message.length).data) ++ ['\n'] = _
    rw [List.append_assoc]
    rfl
  have hstep : sprintfAux
      ('%' :: 's' :: ((synthFormat message.length).data ++ ['\n'])) (msg :: message) =
      (msg ++ (sprintfAux ((synthFormat message.length).data ++ ['\n']) message).1,
        (sprintfAux ((synthFormat message.length).data ++ ['\n']) message).2) := by
    rw [sprintfAux.eq_def]
    simp
  have hnl : sprintfAux ['\n'] ([] : List String) = ("\n", []) := by
    rw [sprintfAux.eq_def]
    simp [sprintfAux, show String.singleton '\n' = "\n" from rfl, String.append_empty]
  have hsyn := sprintfAux_synth message ['\n']
  rw [hnl] at hsyn
  unfold sprintf
  rw [hdata, hstep, hsyn]
  simp [String.append_assoc]

/-! ## Composition lemmas -/

theorem finishLine_spec (l : logger) (env : LogEnv α) (ctx : Ctx α)
    (format : String) (message : List String) (msg : String)
    (hfmt : format ≠ "" → (goodFormat format.data = true ∧
      (sprintfAux format.data message).2 = [])) :
    finishLine l env ctx format message msg =
      msg
      ++ (if l.options.DisableTags = false ∧ 0 < (l.Tags ctx).length then
            " " ++ renderTags env (l.Tags ctx) else "")
      ++ (if l.options.Prefix ≠ "" then " " ++ l.options.Prefix else "")
      ++ (if format = "" ∧ 0 < message.length then
            String.join (message.map (fun v => " " ++ v))
          else (sprintfAux format.data message).1)
      ++ "\n" := by
  simp only [finishLine]
  have hm2 : (if l.options.Prefix ≠ "" then
        (if l.options.DisableTags = false ∧ 0 < (l.Tags ctx).length then
          msg ++ " " ++ renderTags env (l.Tags ctx) else msg) ++ " " ++ l.options.Prefix
      else
        (if l.options.DisableTags = false ∧ 0 < (l.Tags ctx).length then
          msg ++ " " ++ renderTags env (l.Tags ctx) else msg)) =
      msg ++ (if l.options.DisableTags = false ∧ 0 < (l.Tags ctx).length then
          " " ++ renderTags env (l.Tags ctx) else "")
        ++ (if l.options.Prefix ≠ "" then " " ++ l.options.Prefix else "") := by
    by_cases ht : l.options.DisableTags = false ∧ 0 < (l.Tags ctx).length <;>
      by_cases hp : l.options.Prefix ≠ "" <;>
      simp [ht, hp, String.append_assoc, String.append_empty]
  rw [hm2]
  by_cases hfc : format = "" ∧ 0 < message.length
  · rw [if_pos hfc, if_pos hfc, sprintf_synth]
  · rw [if_neg hfc, if_neg hfc]
    by_cases hfe : format = ""
    · have hlen : message.length = 0 := by
        rcases Nat.eq_zero_or_pos message.length with h | h
        · exact h
        · exact absurd ⟨hfe, h⟩ hfc
      have hnil : message = [] := List.length_eq_zero.mp hlen
      subst hnil hfe
      rw [sprintf_decompose _ _ _ (by rfl) (by rfl)]
    · rcases hfmt hfe with ⟨hg, hcons⟩
      rw [sprintf_decompose _ _ _ hg hcons]

theorem emittedLine_spec (l : logger) (env : LogEnv α) (ctx : Ctx α)
    (severity : Level) (format : String) (message : List String)
    (hfmt : format ≠ "" → (goodFormat format.data = true ∧
      (sprintfAux format.data message).2 = [])) :
    l.maybePrefixTimestamp env (finishLine l env ctx format message
      (levelName severity ++
        (if l.options.DisableFunctionName = false ∧ env.callerOk = true then
          " " ++ shortFnName env.callerName else ""))) =
      specComposedLine l env ctx severity format message := by
  rw [finishLine_spec l env ctx format message _ hfmt]
  unfold logger.maybePrefixTimestamp specComposedLine
  by_cases hts : l.options.DisableTimestamps <;>
    simp [hts, String.append_assoc, String.empty_append]

/-! ## Filtering and emission lemmas -/

def writtenCount (st : LogState) : Nat :=
  st.out.written.length + st.err.written.length

theorem writeString_ok (s : Stream) (msg : String) (h : s.failWith = none) :
    s.writeString msg =
      ({ s with written := s.written ++ [msg], attempted := s.attempted ++ [msg] },
        none) := by
  simp [Stream.writeString, h]

theorem writeString_fail (s : Stream) (msg e : String) (h : s.failWith = some e) :
    s.writeString msg = ({ s with attempted := s.attempted ++ [msg] }, some e) := by
  simp [Stream.writeString, h]

theorem Logf_disabled (l : logger) (env : LogEnv α) (ctx : Ctx α)
    (severity : Level) (format : String) (message : List String) (st : LogState)
    (h : l.options.Threshold < 0) :
    l.Logf env ctx severity format message st = (st, .ret none) := by
  simp [logger.Logf, h]

theorem Logf_filtered (l : logger) (env : LogEnv α) (ctx : Ctx α)
    (severity : Level) (format : String) (message : List String) (st : LogState)
    (h0 : ¬ l.options.Threshold < 0)
    (h : coerceSeverity severity ≠ LevelStd ∧
      l.options.Threshold < coerceSeverity severity) :
    l.Logf env ctx severity format message st = (st, .ret none) := by
  simp [logger.Logf, h0, h]

theorem Logf_accepted (l : logger) (env : LogEnv α) (ctx : Ctx α)
    (severity : Level) (format : String) (message : List String) (st : LogState)
    (h0 : ¬ l.options.Threshold < 0)
    (h : ¬ (coerceSeverity severity ≠ LevelStd ∧
      l.options.Threshold < coerceSeverity severity)) :
    l.Logf env ctx severity format message st =
      logfEmit l env ctx (coerceSeverity severity) format message st := by
  simp [logger.Logf, h0, h]

theorem logfWrite_out_ok (l : logger) (env : LogEnv α) (severity : Level)
    (msg : String) (st : LogState)
    (hr : severity = LevelStd ∨ LevelInfo ≤ severity)
    (hf : st.out.failWith = none) :
    logfWrite l env severity msg st =
      ({ st with out := { st.out with
          written := st.out.written ++ [l.maybePrefixTimestamp env msg],
          attempted := st.out.attempted ++ [l.maybePrefixTimestamp env msg] } },
        .ret none) := by
  simp [logfWrite, Stream.writeString, hf, hr]

theorem logfWrite_out_fail (l : logger) (env : LogEnv α) (severity : Level)
    (msg e : String) (st : LogState)
    (hr : severity = LevelStd ∨ LevelInfo ≤ severity)
    (hf : st.out.failWith = some e) :
    logfWrite l env severity msg st =
      ({ st with out := { st.out with
          attempted := st.out.attempted ++ [l.maybePrefixTimestamp env msg] } },
        if l.options.LogFatal then .fatal msg else .ret (some e)) := by
  simp [logfWrite, Stream.writeString, hf, hr]
  split <;> rfl

theorem logfWrite_err_ok (l : logger) (env : LogEnv α) (severity : Level)
    (msg : String) (st : LogState)
    (hr : ¬ (severity = LevelStd ∨ LevelInfo ≤ severity))
    (hf : st.err.failWith = none) :
    logfWrite l env severity msg st =
      ({ st with err := { st.err with
          written := st.err.written ++ [l.maybePrefixTimestamp env msg],
          attempted := st.err.attempted ++ [l.maybePrefixTimestamp env msg] } },
        .ret none) := by
  simp [logfWrite, Stream.writeString, hf, hr]

theorem logfWrite_err_fail (l : logger) (env : LogEnv α) (severity : Level)
    (msg e : String) (st : LogState)
    (hr : ¬ (severity = LevelStd ∨ LevelInfo ≤ severity))
    (hf : st.err.failWith = some e) :
    logfWrite l env severity msg st =
      ({ st with err := { st.err with
          attempted := st.err.attempted ++ [l.maybePrefixTimestamp env msg] } },
        if l.options.LogFatal then .fatal msg else .ret (some e)) := by
  simp [logfWrite, Stream.writeString, hf, hr]
  split <;> rfl

theorem logfEmit_fnOk (l : logger) (env : LogEnv α) (ctx : Ctx α)
    (severity : Level) (format : String) (message : List String) (st : LogState)
    (h : l.options.DisableFunctionName = true ∨ env.callerOk = true) :
    logfEmit l env ctx severity format message st =
      logfWrite l env severity (finishLine l env ctx format message
        (if l.options.DisableFunctionName then levelName severity
         else levelName severity ++ " " ++ shortFnName env.callerName)) st := by
  have hcond : ¬ (l.options.DisableFunctionName = false ∧ env.callerOk = false) := by
    rcases h with h | h <;> simp [h]
  simp only [logfEmit, if_neg hcond]

theorem logfEmit_diag_ok (l : logger) (env : LogEnv α) (ctx : Ctx α)
    (severity : Level) (format : String) (message : List String) (st : LogState)
    (hd : l.options.DisableFunctionName = false) (hc : env.callerOk = false)
    (hf : st.err.failWith = none) :
    logfEmit l env ctx severity format message st =
      logfWrite l env severity (finishLine l env ctx format message
        (levelName severity))
        { st with err := { st.err with
            written := st.err.written ++ [l.maybePrefixTimestamp env lookupErrText],
            attempted := st.err.attempted ++
              [l.maybePrefixTimestamp env lookupErrText] } } := by
  simp [logfEmit, hd, hc, Stream.writeString, hf]

theorem logfEmit_diag_fail (l : logger) (env : LogEnv α) (ctx : Ctx α)
    (severity : Level) (format : String) (message : List String) (st : LogState)
    (e : String)
    (hd : l.options.DisableFunctionName = false) (hc : env.callerOk = false)
    (hf : st.err.failWith = some e) :
    logfEmit l env ctx severity format message st =
      ({ st with err := { st.err with
          attempted := st.err.attempted ++
            [l.maybePrefixTimestamp env lookupErrText] } },
        if l.options.LogFatal then .fatal lookupErrText else .ret (some e)) := by
  simp [logfEmit, hd, hc, Stream.writeString, hf]
  split <;> rfl

theorem shouldEmit_coerce_iff (severity : Level) (threshold : Int) :
    shouldEmit (coerceSeverity severity) threshold = true ↔
      (¬ threshold < 0 ∧ ¬ (coerceSeverity severity ≠ LevelStd ∧
        threshold < coerceSeverity severity)) := by
  unfold shouldEmit
  by_cases h0 : threshold < 0
  · simp [h0]
  · by_cases hs : coerceSeverity severity = LevelStd
    · simp [h0, hs]
    · simp only [if_neg h0, if_neg hs, decide_eq_true_eq, ne_eq]
      constructor
      · intro hle
        refine ⟨h0, ?_⟩
        rintro ⟨-, hlt⟩
        exact absurd hlt (not_lt.mpr hle)
      · rintro ⟨-, hnc⟩
        by_contra hnle
        exact hnc ⟨hs, not_le.mp hnle⟩


/-! ## Helper lemmas for the claims -/

def declaredLevels : List Level :=
  [LevelStd, LevelCritical, LevelError, LevelWarning, LevelInfo, LevelDebug]

theorem coerce_declared (severity : Level) (h : severity ∈ declaredLevels) :
    coerceSeverity severity = severity := by
  fin_cases h <;> decide

theorem streamFor_out_iff (s : Level) :
    streamFor s = StreamChoice.out ↔ (s = LevelStd ∨ LevelInfo ≤ s) := by
  unfold streamFor
  by_cases h : s = LevelStd ∨ LevelInfo ≤ s <;> simp [h]

theorem Logf_accepted_fnOk (l : logger) (env : LogEnv α) (ctx : Ctx α)
    (severity : Level) (format : String) (message : List String) (st : LogState)
    (hok : env.callerOk = true)
    (hacc : shouldEmit (coerceSeverity severity) l.options.Threshold = true) :
    l.Logf env ctx severity format message st =
      logfWrite l env (coerceSeverity severity)
        (finishLine l env ctx format message
          (if l.options.DisableFunctionName then levelName (coerceSeverity severity)
           else levelName (coerceSeverity severity) ++ " " ++
             shortFnName env.callerName)) st := by
  rcases (shouldEmit_coerce_iff severity l.options.Threshold).mp hacc with ⟨h0, h1⟩
  rw [Logf_accepted l env ctx severity format message st h0 h1,
    logfEmit_fnOk _ _ _ _ _ _ _ (Or.inr hok)]

theorem Logf_rejected (l : logger) (env : LogEnv α) (ctx : Ctx α)
    (severity : Level) (format : String) (message : List String) (st : LogState)
    (hrej : shouldEmit (coerceSeverity severity) l.options.Threshold = false) :
    l.Logf env ctx severity format message st = (st, .ret none) := by
  by_cases h0 : l.options.Threshold < 0
  · exact Logf_disabled l env ctx severity format message st h0
  · by_cases h1 : coerceSeverity severity ≠ LevelStd ∧
        l.options.Threshold < coerceSeverity severity
    · exact Logf_filtered l env ctx severity format message st h0 h1
    · exact absurd ((shouldEmit_coerce_iff severity l.options.Threshold).mpr
        (And.intro h0 h1)) (by simp [hrej])

theorem logfWrite_out_attempts (l : logger) (env : LogEnv α) (severity : Level)
    (msg : String) (st : LogState)
    (hr : severity = LevelStd ∨ LevelInfo ≤ severity) :
    (logfWrite l env severity msg st).1.out.attempted =
        st.out.attempted ++ [l.maybePrefixTimestamp env msg]
    ∧ (logfWrite l env severity msg st).1.err = st.err := by
  unfold logfWrite
  rw [if_pos hr]
  cases hf : st.out.failWith with
  | none => simp [Stream.writeString, hf]
  | some e => simp [Stream.writeString, hf, apply_ite]

theorem logfWrite_err_attempts (l : logger) (env : LogEnv α) (severity : Level)
    (msg : String) (st : LogState)
    (hr : ¬ (severity = LevelStd ∨ LevelInfo ≤ severity)) :
    (logfWrite l env severity msg st).1.err.attempted =
        st.err.attempted ++ [l.maybePrefixTimestamp env msg]
    ∧ (logfWrite l env severity msg st).1.out = st.out := by
  unfold logfWrite
  rw [if_neg hr]
  cases hf : st.err.failWith with
  | none => simp [Stream.writeString, hf]
  | some e => simp [Stream.writeString, hf, apply_ite]

/-! ## Concrete values used by the witnesses -/

/-- A concrete environment: an identity-like clock formatter, a resolvable
caller and string tag values. -/
def envW : LogEnv String :=
  { formatTime := fun _ fmt => fmt
    callerOk := true
    callerName := "github.com/foresthoffman/loggy.TestLogger_Log.func1"
    render := id }

/-- Fresh, always-succeeding streams. -/
def stW : LogState :=
  { out := { written := [], attempted := [], failWith := none }
    err := { written := [], attempted := [], failWith := none } }

/-! ## The claims -/

/-- C1: for every declared severity S and configured threshold T, a
Log/Logf call (and the per-severity wrappers, which are definitionally
`Logf` at a fixed severity) writes the message iff `shouldEmit S T`,
i.e. iff T ≥ 0 and (S = Standard or S ≤ T); when T < 0 every call is a
silent no-op returning nil for every severity (the T < 0 check runs
before coercion and filtering). -/
theorem threshold_filtering (l : logger) (env : LogEnv α) (ctx : Ctx α)
    (severity : Level) (format : String) (message : List String) (st : LogState)
    (hdecl : severity ∈ declaredLevels)
    (hok : env.callerOk = true)
    (hout : st.out.failWith = none) (herr : st.err.failWith = none) :
    (writtenCount (l.Logf env ctx severity format message st).1 =
        writtenCount st +
          (if shouldEmit severity l.options.Threshold then 1 else 0))
    ∧ (shouldEmit severity l.options.Threshold = false →
        l.Logf env ctx severity format message st = (st, .ret none))
    ∧ (l.options.Threshold < 0 → ∀ s : Level,
        l.Logf env ctx s format message st = (st, .ret none))
    ∧ l.Log env ctx severity message st = l.Logf env ctx severity "" message st
    ∧ l.Std env ctx message st = l.Logf env ctx LevelStd "" message st
    ∧ l.Critical env ctx message st = l.Logf env ctx LevelCritical "" message st
    ∧ l.Warning env ctx message st = l.Logf env ctx LevelWarning "" message st
    ∧ l.Info env ctx message st = l.Logf env ctx LevelInfo "" message st
    ∧ l.Debug env ctx message st = l.Logf env ctx LevelDebug "" message st := by
  have hco := coerce_declared severity hdecl
  refine ⟨?_, ?_, ?_, rfl, rfl, rfl, rfl, rfl, rfl⟩
  · by_cases hem : shouldEmit severity l.options.Threshold = true
    · rw [hem]
      have hacc : shouldEmit (coerceSeverity severity) l.options.Threshold = true := by
        rw [hco]
        exact hem
      rw [Logf_accepted_fnOk l env ctx severity format message st hok hacc]
      by_cases hr : coerceSeverity severity = LevelStd ∨
          LevelInfo ≤ coerceSeverity severity
      · rw [logfWrite_out_ok _ _ _ _ _ hr hout]
        simp [writtenCount]
        omega
      · rw [logfWrite_err_ok _ _ _ _ _ hr herr]
        simp [writtenCount]
        omega
    · have hem' : shouldEmit severity l.options.Threshold = false := by
        cases hsb : shouldEmit severity l.options.Threshold
        · rfl
        · exact absurd hsb hem
      rw [hem']
      have hrej : shouldEmit (coerceSeverity severity) l.options.Threshold = false := by
        rw [hco]
        exact hem'
      rw [Logf_rejected l env ctx severity format message st hrej]
      simp
  · intro hf
    have hrej : shouldEmit (coerceSeverity severity) l.options.Threshold = false := by
      rw [hco]
      exact hf
    exact Logf_rejected l env ctx severity format message st hrej
  · intro hneg s
    exact Logf_disabled l env ctx s format message st hneg

theorem threshold_filtering_witness :
    writtenCount ((⟨DefaultOptions⟩ : logger).Logf envW ⟨[]⟩ LevelDebug "" ["x"] stW).1 =
      writtenCount stW +
        (if shouldEmit LevelDebug (⟨DefaultOptions⟩ : logger).options.Threshold
          then 1 else 0) :=
  (threshold_filtering ⟨DefaultOptions⟩ envW ⟨[]⟩ LevelDebug "" ["x"] stW
    (by decide) rfl rfl rfl).1

/-- C2: routing is a pure function of the coerced severity — Standard,
Info and Debug to the output stream, Critical, Error and Warning to the
error stream — independent of the threshold; an accepted message makes
exactly one write on exactly the routed stream, a filtered message makes
none on either. -/
theorem stream_routing (l : logger) (env : LogEnv α) (ctx : Ctx α)
    (severity : Level) (format : String) (message : List String) (st : LogState)
    (hok : env.callerOk = true) :
    (streamFor LevelStd = .out ∧ streamFor LevelInfo = .out ∧
      streamFor LevelDebug = .out ∧ streamFor LevelCritical = .err ∧
      streamFor LevelError = .err ∧ streamFor LevelWarning = .err)
    ∧ (shouldEmit (coerceSeverity severity) l.options.Threshold = true →
        (streamFor (coerceSeverity severity) = .out →
          (l.Logf env ctx severity format message st).1.out.attempted.length =
              st.out.attempted.length + 1
            ∧ (l.Logf env ctx severity format message st).1.err = st.err)
        ∧ (streamFor (coerceSeverity severity) = .err →
          (l.Logf env ctx severity format message st).1.err.attempted.length =
              st.err.attempted.length + 1
            ∧ (l.Logf env ctx severity format message st).1.out = st.out))
    ∧ (shouldEmit (coerceSeverity severity) l.options.Threshold = false →
        (l.Logf env ctx severity format message st).1 = st) := by
  refine ⟨by decide, ?_, ?_⟩
  · intro hacc
    rw [Logf_accepted_fnOk l env ctx severity format message st hok hacc]
    constructor
    · intro hrOut
      have hr := (streamFor_out_iff _).mp hrOut
      obtain ⟨h1, h2⟩ := logfWrite_out_attempts l env (coerceSeverity severity)
        (finishLine l env ctx format message
          (if l.options.DisableFunctionName then levelName (coerceSeverity severity)
           else levelName (coerceSeverity severity) ++ " " ++
             shortFnName env.callerName)) st hr
      refine ⟨?_, h2⟩
      rw [h1]
      simp
    · intro hrErr
      have hr : ¬ (coerceSeverity severity = LevelStd ∨
          LevelInfo ≤ coerceSeverity severity) := by
        intro hcontra
        have hout2 := (streamFor_out_iff _).mpr hcontra
        rw [hout2] at hrErr
        exact StreamChoice.noConfusion hrErr
      obtain ⟨h1, h2⟩ := logfWrite_err_attempts l env (coerceSeverity severity)
        (finishLine l env ctx format message
          (if l.options.DisableFunctionName then levelName (coerceSeverity severity)
           else levelName (coerceSeverity severity) ++ " " ++
             shortFnName env.callerName)) st hr
      refine ⟨?_, h2⟩
      rw [h1]
      simp
  · intro hrej
    rw [Logf_rejected l env ctx severity format message st hrej]

theorem stream_routing_witness :
    ((⟨DefaultOptions⟩ : logger).Logf envW ⟨[]⟩ LevelWarning "" [] stW).1.err.attempted.length =
      stW.err.attempted.length + 1 := by
  have h := (stream_routing (⟨DefaultOptions⟩ : logger) envW ⟨[]⟩ LevelWarning
    "" [] stW rfl).2.1 (by decide)
  exact (h.2 (by decide)).1

/-- C3: `New` on the all-unset `Options{}` does fill Out, Err,
TimestampFormat, TimestampFunc and TagsContextKey from `DefaultOptions`,
but it never touches Threshold: the built logger keeps the zero value
`LevelStd`, not the documented default `LevelInfo`. -/
theorem new_threshold_default_missing :
    (New (⟨[]⟩ : Ctx Unit) zeroOptions).1.options.Threshold = LevelStd
    ∧ DefaultOptions.Threshold = LevelInfo
    ∧ (New (⟨[]⟩ : Ctx Unit) zeroOptions).1.options.Threshold ≠
        DefaultOptions.Threshold
    ∧ (New (⟨[]⟩ : Ctx Unit) zeroOptions).1.options.Out = some GoWriter.stdout
    ∧ (New (⟨[]⟩ : Ctx Unit) zeroOptions).1.options.Err = some GoWriter.stderr
    ∧ (New (⟨[]⟩ : Ctx Unit) zeroOptions).1.options.TimestampFormat = RFC3339
    ∧ (New (⟨[]⟩ : Ctx Unit) zeroOptions).1.options.TimestampFunc =
        some TimeFn.timeNow
    ∧ (New (⟨[]⟩ : Ctx Unit) zeroOptions).1.options.TagsContextKey =
        ContextKeyTags := by
  decide

theorem wrap64_eq_self (n : Int) (h1 : -(2 ^ 63) ≤ n) (h2 : n < 2 ^ 63) :
    wrap64 n = n := by
  unfold wrap64
  have h0 : 0 ≤ n + 2 ^ 63 := by omega
  have hlt : n + 2 ^ 63 < 2 ^ 64 := by omega
  rw [Int.emod_eq_of_lt h0 hlt]
  omega

/-- C4 counterexample: `math.MaxInt64` is beyond the largest declared
level, yet `severity+1` wraps to `math.MinInt64` there, the range check
does not fire and the severity is not substituted by Standard: with the
default threshold the call is silently filtered where a Standard call
writes a line, and the label lookup at the uncoerced severity fails. -/
theorem out_of_range_maxint_counterexample :
    (LevelNames.length : Int) < (2 ^ 63 - 1 : Int) + 1
    ∧ coerceSeverity (2 ^ 63 - 1) ≠ LevelStd
    ∧ (⟨DefaultOptions⟩ : logger).Logf envW ⟨[]⟩ (2 ^ 63 - 1) "" [] stW =
        (stW, .ret none)
    ∧ (⟨DefaultOptions⟩ : logger).Logf envW ⟨[]⟩ LevelStd "" [] stW ≠
        (stW, .ret none)
    ∧ (LevelNames.find? (fun p => p.1 == coerceSeverity (2 ^ 63 - 1))).isSome =
        false := by
  refine ⟨by decide, by decide, ?_, by decide, by decide⟩
  refine Logf_filtered _ envW ⟨[]⟩ (2 ^ 63 - 1) "" [] stW (by decide) ⟨?_, ?_⟩
  · rw [show coerceSeverity (2 ^ 63 - 1 : Int) = 2 ^ 63 - 1 from by decide]
    decide
  · rw [show coerceSeverity (2 ^ 63 - 1 : Int) = 2 ^ 63 - 1 from by decide]
    decide

/-- C4 (as amended): for every representable Go `int` severity outside
the declared set other than `math.MaxInt64`, Log/Logf substitutes
Standard before label lookup and behaves exactly as for Standard; the
label mapping assigns exactly one label to each declared severity, and
the lookup done after coercion succeeds for every representable severity
other than `math.MaxInt64`; at `math.MaxInt64` the wrap leaves the
severity unchanged and the call is filtered by every smaller
threshold. -/
theorem out_of_range_severity_coerced (s : Int)
    (hlo : -(2 ^ 63) ≤ s) (hhi : s < 2 ^ 63) (hmax : s ≠ 2 ^ 63 - 1)
    (hout : s < 0 ∨ (LevelNames.length : Int) < s + 1) :
    coerceSeverity s = LevelStd
    ∧ (∀ {α : Type} (l : logger) (env : LogEnv α) (ctx : Ctx α)
        (format : String) (message : List String) (st : LogState),
        l.Logf env ctx s format message st =
          l.Logf env ctx LevelStd format message st)
    ∧ (∀ t ∈ declaredLevels, LevelNames.countP (fun p => p.1 == t) = 1)
    ∧ (∀ t : Int, -(2 ^ 63) ≤ t → t < 2 ^ 63 → t ≠ 2 ^ 63 - 1 →
        (LevelNames.find? (fun p => p.1 == coerceSeverity t)).isSome = true)
    ∧ coerceSeverity (2 ^ 63 - 1) = 2 ^ 63 - 1
    ∧ (∀ {α : Type} (l : logger) (env : LogEnv α) (ctx : Ctx α)
        (format : String) (message : List String) (st : LogState),
        ¬ l.options.Threshold < 0 → l.options.Threshold < 2 ^ 63 - 1 →
        l.Logf env ctx (2 ^ 63 - 1) format message st = (st, .ret none)) := by
  have hmaxeq : coerceSeverity (2 ^ 63 - 1 : Int) = 2 ^ 63 - 1 := by decide
  have hcs : coerceSeverity s = LevelStd := by
    unfold coerceSeverity
    rcases hout with hneg | hbig
    · rw [if_pos (Or.inl hneg)]
    · have hw : wrap64 (s + 1) = s + 1 :=
        wrap64_eq_self (s + 1) (by omega) (by omega)
      rw [if_pos (Or.inr (by rw [hw]; exact hbig))]
  refine ⟨hcs, ?_, ?_, ?_, hmaxeq, ?_⟩
  · intro α l env ctx format message st
    unfold logger.Logf
    rw [hcs]
    have h0 : coerceSeverity LevelStd = LevelStd := by decide
    rw [h0]
  · intro t ht
    fin_cases ht <;> decide
  · intro t htlo hthi htmax
    unfold coerceSeverity
    by_cases hc : t < 0 ∨ (LevelNames.length : Int) < wrap64 (t + 1)
    · rw [if_pos hc]
      decide
    · rw [if_neg hc]
      push_neg at hc
      obtain ⟨h0, h1⟩ := hc
      have hw : wrap64 (t + 1) = t + 1 :=
        wrap64_eq_self (t + 1) (by omega) (by omega)
      rw [hw, show (LevelNames.length : Int) = 6 from by decide] at h1
      have hb0 : 0 ≤ t := by omega
      have hb5 : t ≤ 5 := by omega
      interval_cases t <;> decide
  · intro α l env ctx format message st h0 hlt
    refine Logf_filtered l env ctx (2 ^ 63 - 1) format message st h0 ⟨?_, ?_⟩
    · rw [hmaxeq]
      decide
    · rw [hmaxeq]
      exact hlt

theorem out_of_range_severity_coerced_witness : coerceSeverity 99 = LevelStd :=
  (out_of_range_severity_coerced 99 (by decide) (by decide) (by decide)
    (by decide)).1

/-- C7: for every context, non-empty name and value, `AddTag` then `Tag`
on the returned context yields the value; the store keeps exactly one
entry for the name (latest value wins, also after a second `AddTag`);
`RemoveTag` then `Tag` yields absent.  The `Nodup` hypothesis is the Go
map-type invariant of the store found in the context. -/
theorem tag_roundtrip {α : Type} (l : logger) (ctx : Ctx α) (name : String)
    (v w : α) (hname : name ≠ "")
    (hwf : ((l.Tags ctx).map Prod.fst).Nodup) :
    l.Tag (l.AddTag ctx name v).2 name = some v
    ∧ (l.AddTag ctx name v).1.countP (fun p => p.1 == name) = 1
    ∧ l.Tag (l.AddTag (l.AddTag ctx name v).2 name w).2 name = some w
    ∧ l.Tag (l.RemoveTag ctx name).2 name = none := by
  have hval : ∀ (c : Ctx α) (m : TagMap α),
      (c.withValue l.options.TagsContextKey (.tags m)).value?
        l.options.TagsContextKey = some (.tags m) := by
    intro c m
    simp [Ctx.withValue, Ctx.value?]
  refine ⟨?_, ?_, ?_, ?_⟩
  · simp only [logger.AddTag, logger.Tag, if_pos hname]
    rw [hval]
    exact get?_insert_self (l.Tags ctx) name v
  · simp only [logger.AddTag, if_pos hname]
    exact countP_insert_one (l.Tags ctx) name v hwf
  · simp only [logger.AddTag, logger.Tag, logger.Tags, if_pos hname]
    rw [hval, hval]
    exact get?_insert_self _ name w
  · simp only [logger.RemoveTag, logger.Tag, if_pos hname]
    rw [hval]
    exact get?_erase_self (l.Tags ctx) name

theorem tag_roundtrip_witness :
    (⟨DefaultOptions⟩ : logger).Tag
      ((⟨DefaultOptions⟩ : logger).AddTag (⟨[]⟩ : Ctx String) "waffles" "1").2
      "waffles" = some "1" :=
  (tag_roundtrip ⟨DefaultOptions⟩ ⟨[]⟩ "waffles" "1" "3" (by decide) (by decide)).1

/-- C8: `AddTag` and `RemoveTag` with an empty name are no-ops: they
return the current mapping and the original context unchanged — no new
context value is derived and no entry is inserted or deleted. -/
theorem empty_name_tag_noop {α : Type u} (l : logger) (ctx : Ctx α) (v : α) :
    l.AddTag ctx "" v = (l.Tags ctx, ctx)
    ∧ l.RemoveTag ctx "" = (l.Tags ctx, ctx) := by
  constructor
  · simp [logger.AddTag]
  · simp [logger.RemoveTag]

/-- C10: `Writer.Write` returns `(0, nil)` without invoking the handler on
empty input, `(0, err)` when the handler errors, `(len p, nil)` when it
succeeds; the reported count is always 0 or the full input length. -/
theorem writer_write_count (w : Writer) (p : List Nat) :
    (p.length = 0 → w.Write p = (w, 0, none))
    ∧ (∀ e : String, 0 < p.length → (w.handler w.out p).2 = some e →
        w.Write p = ({ w with out := (w.handler w.out p).1 }, 0, some e))
    ∧ (0 < p.length → (w.handler w.out p).2 = none →
        w.Write p = ({ w with out := (w.handler w.out p).1 }, p.length, none))
    ∧ ((w.Write p).2.1 = 0 ∨ (w.Write p).2.1 = p.length) := by
  refine ⟨?_, ?_, ?_, ?_⟩
  · intro h
    simp [Writer.Write, h]
  · intro e hp he
    have hp0 : ¬ p.length = 0 := Nat.pos_iff_ne_zero.mp hp
    rcases hh : w.handler w.out p with ⟨out2, e2⟩
    rw [hh] at he
    simp only at he
    subst he
    simp [Writer.Write, hp0, hh]
  · intro hp he
    have hp0 : ¬ p.length = 0 := Nat.pos_iff_ne_zero.mp hp
    rcases hh : w.handler w.out p with ⟨out2, e2⟩
    rw [hh] at he
    simp only at he
    subst he
    simp [Writer.Write, hp0, hh]
  · by_cases h : p.length = 0
    · left
      simp [Writer.Write, h]
    · rcases hh : w.handler w.out p with ⟨out2, e2⟩
      cases e2 with
      | none => right; simp [Writer.Write, h, hh]
      | some e => left; simp [Writer.Write, h, hh]

/-- C5: every emitted line is composed left to right as timestamp (when
enabled, configured format and clock, one trailing space), severity
label, function name (when enabled and captured), tag list, prefix, then
the payload — synthesized as one generic placeholder per value,
space-joined, when no format was given — with the line terminator always
appended (`specComposedLine` spells out the spec's composition order). -/
theorem rendered_line_composition (l : logger) (env : LogEnv α) (ctx : Ctx α)
    (severity : Level) (format : String) (message : List String) (st : LogState)
    (hacc : shouldEmit (coerceSeverity severity) l.options.Threshold = true)
    (hok : env.callerOk = true)
    (hout : st.out.failWith = none) (herr : st.err.failWith = none)
    (hfmt : format ≠ "" → (goodFormat format.data = true ∧
      (sprintfAux format.data message).2 = [])) :
    (streamFor (coerceSeverity severity) = .out →
      (l.Logf env ctx severity format message st).1.out.written =
        st.out.written ++
          [specComposedLine l env ctx (coerceSeverity severity) format message])
    ∧ (streamFor (coerceSeverity severity) = .err →
      (l.Logf env ctx severity format message st).1.err.written =
        st.err.written ++
          [specComposedLine l env ctx (coerceSeverity severity) format message]) := by
  rw [Logf_accepted_fnOk l env ctx severity format message st hok hacc]
  have hhdr : (if l.options.DisableFunctionName then
        levelName (coerceSeverity severity)
      else levelName (coerceSeverity severity) ++ " " ++
        shortFnName env.callerName) =
      levelName (coerceSeverity severity) ++
        (if l.options.DisableFunctionName = false ∧ env.callerOk = true then
          " " ++ shortFnName env.callerName else "") := by
    by_cases hd : l.options.DisableFunctionName <;>
      simp [hd, hok, String.append_empty, String.append_assoc]
  rw [hhdr]
  have hline := emittedLine_spec l env ctx (coerceSeverity severity) format
    message hfmt
  constructor
  · intro hrOut
    have hr := (streamFor_out_iff _).mp hrOut
    rw [logfWrite_out_ok _ _ _ _ _ hr hout]
    simp only []
    rw [hline]
  · intro hrErr
    have hr : ¬ (coerceSeverity severity = LevelStd ∨
        LevelInfo ≤ coerceSeverity severity) := by
      intro hcontra
      have hout2 := (streamFor_out_iff _).mpr hcontra
      rw [hout2] at hrErr
      exact StreamChoice.noConfusion hrErr
    rw [logfWrite_err_ok _ _ _ _ _ hr herr]
    simp only []
    rw [hline]

theorem rendered_line_composition_witness :
    ((⟨DefaultOptions⟩ : logger).Logf envW ⟨[]⟩ LevelStd "" ["hello"] stW).1.out.written =
      stW.out.written ++
        [specComposedLine ⟨DefaultOptions⟩ envW ⟨[]⟩ (coerceSeverity LevelStd)
          "" ["hello"]] :=
  (rendered_line_composition ⟨DefaultOptions⟩ envW ⟨[]⟩ LevelStd "" ["hello"]
    stW (by decide) rfl rfl rfl (fun h => absurd rfl h)).1 (by decide)

/-- C6: a failing stream write on an accepted message is returned as the
call's error value unless the fatal-escalation flag is set, in which case
the call ends in `log.Fatal` and does not return normally; the write is
attempted exactly once with nothing recorded; a filtered message makes no
write and returns nil. -/
theorem write_failure_semantics (l : logger) (env : LogEnv α) (ctx : Ctx α)
    (severity : Level) (format : String) (message : List String) (st : LogState)
    (e : String) (hok : env.callerOk = true) :
    (shouldEmit (coerceSeverity severity) l.options.Threshold = true →
      (streamFor (coerceSeverity severity) = .out → st.out.failWith = some e →
        ((l.options.LogFatal = false →
            (l.Logf env ctx severity format message st).2 = .ret (some e))
          ∧ (l.options.LogFatal = true →
            ∃ m, (l.Logf env ctx severity format message st).2 = .fatal m)
          ∧ (l.Logf env ctx severity format message st).1.out.attempted.length =
              st.out.attempted.length + 1
          ∧ (l.Logf env ctx severity format message st).1.out.written =
              st.out.written
          ∧ (l.Logf env ctx severity format message st).1.err = st.err))
      ∧ (streamFor (coerceSeverity severity) = .err → st.err.failWith = some e →
        ((l.options.LogFatal = false →
            (l.Logf env ctx severity format message st).2 = .ret (some e))
          ∧ (l.options.LogFatal = true →
            ∃ m, (l.Logf env ctx severity format message st).2 = .fatal m)
          ∧ (l.Logf env ctx severity format message st).1.err.attempted.length =
              st.err.attempted.length + 1
          ∧ (l.Logf env ctx severity format message st).1.err.written =
              st.err.written
          ∧ (l.Logf env ctx severity format message st).1.out = st.out)))
    ∧ (shouldEmit (coerceSeverity severity) l.options.Threshold = false →
        l.Logf env ctx severity format message st = (st, .ret none)) := by
  constructor
  · intro hacc
    rw [Logf_accepted_fnOk l env ctx severity format message st hok hacc]
    constructor
    · intro hrOut hfail
      have hr := (streamFor_out_iff _).mp hrOut
      rw [logfWrite_out_fail _ _ _ _ _ _ hr hfail]
      refine ⟨?_, ?_, by simp, by simp, by simp⟩
      · intro hlf
        simp [hlf]
      · intro hlf
        refine ⟨finishLine l env ctx format message
          (if l.options.DisableFunctionName then levelName (coerceSeverity severity)
           else levelName (coerceSeverity severity) ++ " " ++
             shortFnName env.callerName), ?_⟩
        simp [hlf]
    · intro hrErr hfail
      have hr : ¬ (coerceSeverity severity = LevelStd ∨
          LevelInfo ≤ coerceSeverity severity) := by
        intro hcontra
        have hout2 := (streamFor_out_iff _).mpr hcontra
        rw [hout2] at hrErr
        exact StreamChoice.noConfusion hrErr
      rw [logfWrite_err_fail _ _ _ _ _ _ hr hfail]
      refine ⟨?_, ?_, by simp, by simp, by simp⟩
      · intro hlf
        simp [hlf]
      · intro hlf
        refine ⟨finishLine l env ctx format message
          (if l.options.DisableFunctionName then levelName (coerceSeverity severity)
           else levelName (coerceSeverity severity) ++ " " ++
             shortFnName env.callerName), ?_⟩
        simp [hlf]
  · intro hrej
    exact Logf_rejected l env ctx severity format message st hrej

/-- A failing output stream, for the C6 witness. -/
def stF : LogState :=
  { out := { written := [], attempted := [], failWith := some "boom" }
    err := { written := [], attempted := [], failWith := none } }

theorem write_failure_semantics_witness :
    ((⟨DefaultOptions⟩ : logger).Logf envW ⟨[]⟩ LevelStd "" [] stF).2 =
      .ret (some "boom") := by
  have h := (write_failure_semantics ⟨DefaultOptions⟩ envW ⟨[]⟩ LevelStd "" []
    stF "boom" rfl).1 (by decide)
  exact (h.1 (by decide) rfl).1 rfl

/-- C9: when function-name capture is enabled but the runtime cannot
resolve a caller frame, a one-line diagnostic with the Critical label and
fixed text goes to the error stream; if that diagnostic write itself
fails the fatal-escalation flag is honored (terminate, else return the
error); when it succeeds, the original message is still rendered without
a function name and emitted on its routed stream. -/
theorem fn_capture_failure_diag (l : logger) (env : LogEnv α) (ctx : Ctx α)
    (severity : Level) (format : String) (message : List String) (st : LogState)
    (e : String)
    (hdfn : l.options.DisableFunctionName = false)
    (hok : env.callerOk = false)
    (hacc : shouldEmit (coerceSeverity severity) l.options.Threshold = true)
    (hfmt : format ≠ "" → (goodFormat format.data = true ∧
      (sprintfAux format.data message).2 = [])) :
    lookupErrText =
      "CRIT loggy.logger.Logf failed to dynamically lookup function name"
    ∧ (st.err.failWith = none →
        (streamFor (coerceSeverity severity) = .out → st.out.failWith = none →
          (l.Logf env ctx severity format message st).1.out.written =
              st.out.written ++
                [specComposedLine l env ctx (coerceSeverity severity) format message]
            ∧ (l.Logf env ctx severity format message st).1.err.written =
              st.err.written ++ [l.maybePrefixTimestamp env lookupErrText]
            ∧ (l.Logf env ctx severity format message st).2 = .ret none)
        ∧ (streamFor (coerceSeverity severity) = .err →
          (l.Logf env ctx severity format message st).1.err.written =
              st.err.written ++ [l.maybePrefixTimestamp env lookupErrText,
                specComposedLine l env ctx (coerceSeverity severity) format message]
            ∧ (l.Logf env ctx severity format message st).2 = .ret none))
    ∧ (st.err.failWith = some e → l.options.LogFatal = true →
        (l.Logf env ctx severity format message st).2 = .fatal lookupErrText)
    ∧ (st.err.failWith = some e → l.options.LogFatal = false →
        (l.Logf env ctx severity format message st).2 = .ret (some e)) := by
  rcases (shouldEmit_coerce_iff severity l.options.Threshold).mp hacc with ⟨h0, h1⟩
  have hlogf := Logf_accepted l env ctx severity format message st h0 h1
  have hhdr : levelName (coerceSeverity severity) =
      levelName (coerceSeverity severity) ++
        (if l.options.DisableFunctionName = false ∧ env.callerOk = true then
          " " ++ shortFnName env.callerName else "") := by
    simp [hok, String.append_empty]
  have hline : l.maybePrefixTimestamp env (finishLine l env ctx format message
      (levelName (coerceSeverity severity))) =
      specComposedLine l env ctx (coerceSeverity severity) format message := by
    rw [hhdr]
    exact emittedLine_spec l env ctx (coerceSeverity severity) format message hfmt
  refine ⟨rfl, ?_, ?_, ?_⟩
  · intro herr
    have hemit := logfEmit_diag_ok l env ctx (coerceSeverity severity) format
      message st hdfn hok herr
    constructor
    · intro hrOut hout
      have hr := (streamFor_out_iff _).mp hrOut
      rw [hlogf, hemit, logfWrite_out_ok l env (coerceSeverity severity)
        (finishLine l env ctx format message (levelName (coerceSeverity severity)))
        { st with err := { st.err with
            written := st.err.written ++ [l.maybePrefixTimestamp env lookupErrText],
            attempted := st.err.attempted ++
              [l.maybePrefixTimestamp env lookupErrText] } } hr hout]
      refine ⟨?_, by simp, by simp⟩
      simp only []
      rw [hline]
    · intro hrErr
      have hr : ¬ (coerceSeverity severity = LevelStd ∨
          LevelInfo ≤ coerceSeverity severity) := by
        intro hcontra
        have hout2 := (streamFor_out_iff _).mpr hcontra
        rw [hout2] at hrErr
        exact StreamChoice.noConfusion hrErr
      rw [hlogf, hemit, logfWrite_err_ok l env (coerceSeverity severity)
        (finishLine l env ctx format message (levelName (coerceSeverity severity)))
        { st with err := { st.err with
            written := st.err.written ++ [l.maybePrefixTimestamp env lookupErrText],
            attempted := st.err.attempted ++
              [l.maybePrefixTimestamp env lookupErrText] } } hr herr]
      refine ⟨?_, by simp⟩
      simp only []
      rw [hline, List.append_assoc]
      rfl
  · intro herr hlf
    rw [hlogf, logfEmit_diag_fail l env ctx (coerceSeverity severity) format
      message st e hdfn hok herr]
    simp [hlf]
  · intro herr hlf
    rw [hlogf, logfEmit_diag_fail l env ctx (coerceSeverity severity) format
      message st e hdfn hok herr]
    simp [hlf]

/-- The environment whose caller-frame lookup fails, for the C9 witness. -/
def envWFail : LogEnv String :=
  { envW with callerOk := false }

theorem fn_capture_failure_diag_witness :
    ((⟨DefaultOptions⟩ : logger).Logf envWFail ⟨[]⟩ LevelStd "" [] stW).2 =
      .ret none := by
  have h := (fn_capture_failure_diag ⟨DefaultOptions⟩ envWFail ⟨[]⟩ LevelStd
    "" [] stW "e" rfl rfl (by decide) (fun hne => absurd rfl hne)).2.1 rfl
  exact (h.1 (by decide) rfl).2.2

theorem writer_write_count_witness :
    Writer.Write (NewWriter { chunks := [], failWith := none } DefaultWriteFn)
      [1, 2, 3] =
      ({ handler := DefaultWriteFn,
         out := { chunks := [[1, 2, 3]], failWith := none } }, 3, none) := by
  have h := (writer_write_count
    (NewWriter { chunks := [], failWith := none } DefaultWriteFn) [1, 2, 3]).2.2.1
    (by decide) rfl
  exact h

end Loggy
